import Mathlib

/-!
Verification of the `syllabify` repository: a shallow embedding of
`syllabify.py` (phoneme classification tables, nucleus/onset segmentation,
onset/coda resolution, syllabifier orchestration, pretty printer, destress)
and of the sound-class component of `wcm.py`, together with theorems about
the claims of the specification.

Phonemes are modelled as `String` (the Python code works on lists of
strings).  Python `set` constants become `List String` constants with
`List.contains` membership (the sets carry no multiplicity and the lists
below are duplicate-free, so membership agrees).  Fallible code (a Python
`raise`) is modelled with `Except`/`Option`.
-/

/-- The two `ValueError` raise sites of `syllabify.py`, kept distinct:
`invalidInput` is the validation at the top of `resolve_onsets_and_codas`
(empty or length-mismatched nuclei/onsets lists, the error the spec calls
`InvalidInputError`), `roundTripMismatch` is the post-hoc flattening check
at the end of `syllabify` (the error the spec calls `SyllabificationError`). -/
inductive SyllabifyError where
  | invalidInput
  | roundTripMismatch
  deriving DecidableEq, Repr

/-- The `Syllable` dataclass of `syllabify.py`. -/
structure Syllable where
  onset : List String
  nucleus : List String
  coda : List String
  deriving DecidableEq, Repr

/-- `SLAX` from `syllabify.py`: the stressed lax vowels used by the Alaska rule. -/
def SLAX : List String :=
  ["IH1", "IH2", "EH1", "EH2", "AE1", "AE2", "AH1", "AH2", "UH1", "UH2"]

/-- `VOWELS` from `syllabify.py`: the vowel literals of the source union `SLAX`. -/
def VOWELS : List String :=
  ["IY1", "IY2", "IY0", "EY1", "EY2", "EY0", "AA1", "AA2", "AA0",
   "ER1", "ER2", "ER0", "AW1", "AW2", "AW0", "AO1", "AO2", "AO0",
   "AY1", "AY2", "AY0", "OW1", "OW2", "OW0", "OY1", "OY2", "OY0",
   "IH0", "EH0", "AE0", "AH0", "UH0", "UW1", "UW2", "UW0", "UW",
   "IY", "EY", "AA", "ER", "AW", "AO", "AY", "OW", "OY",
   "UH", "IH", "EH", "AE", "AH"] ++ SLAX

/-- `O2` from `syllabify.py`: licit two-consonant medial onsets (ordered pairs,
modelled as two-element lists). -/
def O2 : List (List String) :=
  [["P", "R"], ["T", "R"], ["K", "R"], ["B", "R"], ["D", "R"],
   ["G", "R"], ["F", "R"], ["TH", "R"],
   ["P", "L"], ["K", "L"], ["B", "L"], ["G", "L"],
   ["F", "L"], ["S", "L"],
   ["K", "W"], ["G", "W"], ["S", "W"],
   ["S", "P"], ["S", "T"], ["S", "K"],
   ["HH", "Y"],
   ["R", "W"]]

/-- `O3` from `syllabify.py`: licit three-consonant medial onsets. -/
def O3 : List (List String) :=
  [["S", "T", "R"], ["S", "K", "L"], ["T", "R", "W"]]

/-- `identify_nuclei_and_onsets`, written as a single left-to-right scan.
`buf` holds the phonemes seen since the most recent vowel (exclusive); the
Python code obtains the same lists by slicing
`pronunciation[last_vowel_index + 1 : index]` at each vowel and
`pronunciation[last_vowel_index + 1 :]` at the end. -/
def identifyAux (buf : List String) (pron : List String) :
    List (List String) × List (List String) × List String :=
  match pron with
  | [] => ([], [], buf)
  | p :: rest =>
    if VOWELS.contains p then
      let r := identifyAux [] rest
      ([p] :: r.1, buf :: r.2.1, r.2.2)
    else
      identifyAux (buf ++ [p]) rest

/-- `identify_nuclei_and_onsets` from `syllabify.py`: returns
(nuclei, onsets, codas) where `codas` is the residual tail after the last
vowel. -/
def identify_nuclei_and_onsets (pron : List String) :
    List (List String) × List (List String) × List String :=
  identifyAux [] pron

/-- R-onset transfer (first special case of the resolver loop): if the onset
group has more than one phoneme and starts with "R", that "R" is appended to
the preceding nucleus.  Returns the updated preceding nucleus and the
remaining onset group. -/
def stepR (prevNuc onset : List String) : List String × List String :=
  match onset with
  | p :: rest => if onset.length > 1 && p == "R" then (prevNuc ++ [p], rest) else (prevNuc, onset)
  | [] => (prevNuc, onset)

/-- Glide-onset transfer (second special case): if the group now has more
than two phonemes and ends with "Y", that "Y" is moved to the front of the
current nucleus.  Returns the updated current nucleus and the remaining
group. -/
def stepY (nuc cur : List String) : List String × List String :=
  if cur.length > 2 && cur.getLast? == some "Y" then ("Y" :: nuc, cur.dropLast) else (nuc, cur)

/-- Alaska rule (third special case): if active, the group has more than one
phoneme, the preceding nucleus ends in a stressed lax vowel and the group
starts with "S", that "S" is moved into the emerging coda of the preceding
syllable.  Returns the emerging coda and the remaining group.  (The Python
expression `nuclei[i - 1][-1]` is only reached with a nonempty preceding
nucleus when called from `syllabify`; an empty nucleus is modelled as
no-match.) -/
def stepAlaska (alaska : Bool) (prevNuc cur : List String) : List String × List String :=
  let laxBefore : Bool :=
    match prevNuc.getLast? with
    | some v => SLAX.contains v
    | none => false
  match cur with
  | p :: rest =>
    if cur.length > 1 && alaska && laxBefore && p == "S" then ([p], rest) else ([], cur)
  | [] => ([], cur)

/-- Onset maximization depth: 1 by default; when the group has more than one
phoneme, 3 if its last three phonemes form a licit triple (the Python code
tests `O3` first), else 2 if its last two phonemes form a licit pair, else 1. -/
def onsetDepth (cur : List String) : Nat :=
  if cur.length > 1 then
    if cur.length ≥ 3 && O3.contains (cur.drop (cur.length - 3)) then 3
    else if O2.contains (cur.drop (cur.length - 2)) then 2
    else 1
  else 1

/-- The `while len(current_onset) > depth` loop: phonemes beyond the depth,
counted from the front, are peeled off in order (first component, appended to
the coda) and the final onset is what remains (second component). -/
def splitByDepth (cur : List String) : List String × List String :=
  (cur.take (cur.length - onsetDepth cur), cur.drop (cur.length - onsetDepth cur))

/-- One iteration of the resolver loop of `resolve_onsets_and_codas` for a
medial onset group, mirroring the rule order of the source: R-transfer, then
Y-transfer, then Alaska rule, then onset maximization.  Given the current
state of the preceding nucleus, the raw onset group and the current nucleus,
it returns (final preceding nucleus, coda of the preceding syllable, final
onset, current nucleus after the Y-transfer). -/
def resolveStep (alaska : Bool) (prevNuc onset nuc : List String) :
    List String × List String × List String × List String :=
  match stepR prevNuc onset with
  | (prevNuc1, cur1) =>
    match stepY nuc cur1 with
    | (nuc1, cur2) =>
      match stepAlaska alaska prevNuc1 cur2 with
      | (coda0, cur3) =>
        match splitByDepth cur3 with
        | (peeled, onsetFinal) => (prevNuc1, coda0 ++ peeled, onsetFinal, nuc1)

/-- The resolver loop, processing the medial (onset, nucleus) pairs left to
right and emitting the syllables in order.

Python's `resolve_onsets_and_codas` deep-copies `nuclei` (line 117) and the
R/Y transfers mutate only that copy; the function returns just
`(onsets, resolved_codas)` (line 165), so the mutated nuclei are DISCARDED,
and `syllabify` zips the ORIGINAL nuclei from segmentation (lines 189-192).
The loop therefore threads two nucleus values per position: `prevNuc`, the
resolver's internal mutated state (R is appended to it and it is read by the
Alaska-rule check), and `origPrevNuc`, the original segmentation nucleus that
actually ends up in the emitted `Syllable`.  A phoneme moved by the R- or
Y-transfer lives only in the discarded copy and is absent from the output.
The residual tail `codas` is appended to the last syllable coda (which the
loop always leaves empty), exactly as `resolved_codas[-1].extend(codas)`
does. -/
def resolveAux (alaska : Bool) (prevOnset origPrevNuc prevNuc codas : List String) :
    List (List String × List String) → List Syllable
  | [] => [⟨prevOnset, origPrevNuc, codas⟩]
  | (o, n) :: rest =>
    let st := resolveStep alaska prevNuc o n
    ⟨prevOnset, origPrevNuc, st.2.1⟩ :: resolveAux alaska st.2.2.1 n st.2.2.2 codas rest

/-- `resolve_onsets_and_codas` from `syllabify.py`, fused with the zip that
`syllabify` performs afterwards: the validation rejects empty or
length-mismatched nuclei/onsets lists, then the loop runs over the medial
pairs.  The Python function returns `(onsets, resolved_codas)` and
`syllabify` zips them with the caller's (unmutated, original) `nuclei` into
`Syllable` records; `resolveAux` emits those records directly, passing the
unmodified nuclei through to the output while threading the resolver's
mutated copy (initially identical) for the Alaska-rule check. -/
def resolve_onsets_and_codas (nuclei onsets : List (List String))
    (codas : List String) (alaska : Bool) : Except SyllabifyError (List Syllable) :=
  match nuclei, onsets with
  | [], _ => .error .invalidInput
  | _, [] => .error .invalidInput
  | n0 :: nrest, o0 :: orest =>
    if nrest.length ≠ orest.length then .error .invalidInput
    else .ok (resolveAux alaska o0 n0 n0 codas (orest.zip nrest))

/-- Flattening of a syllable list: `onset + nucleus + coda` per syllable,
concatenated in order (the `chain.from_iterable` expression in `syllabify`). -/
def flattenSyllables (syls : List Syllable) : List String :=
  (syls.map fun s => s.onset ++ s.nucleus ++ s.coda).flatten

/-- `syllabify` from `syllabify.py` (Python default `alaska_rule=True` is
passed explicitly by callers here).  The dead branch
`if len(resolved_codas) > len(onsets)` of the source is omitted: the two
lists always have equal length.  The final check is the round-trip
validation gate. -/
def syllabify (pron : List String) (alaska : Bool) : Except SyllabifyError (List Syllable) :=
  match identify_nuclei_and_onsets pron with
  | (nuclei, onsets, codas) =>
    match resolve_onsets_and_codas nuclei onsets codas alaska with
    | .error e => .error e
    | .ok syls =>
      if flattenSyllables syls ≠ pron then .error .roundTripMismatch else .ok syls

/-- `pretty_print` from `syllabify.py`: phonemes space-joined within a
segment, non-empty segments hyphen-joined within a syllable
(`filter(None, ...)` keeps the non-empty strings), syllables period-joined. -/
def pretty_print (syllab : List Syllable) : String :=
  String.intercalate "." (syllab.map fun syl =>
    String.intercalate "-"
      (([String.intercalate " " syl.onset,
         String.intercalate " " syl.nucleus,
         String.intercalate " " syl.coda]).filter fun s => !s.isEmpty))

/-- The Python test `phoneme[-1] in {0, 1, 2}`: the last character is a
stress digit.  False on the empty string (Python raises there instead; the
caller below checks emptiness first). -/
def endsWithStressDigit (phoneme : String) : Bool :=
  match phoneme.data.getLast? with
  | some c => c == '0' || c == '1' || c == '2'
  | none => false

/-- The per-phoneme body of `destress`:
`phoneme[:-1] if phoneme[-1] in {0, 1, 2} else phoneme`.  On the empty
string the Python expression `phoneme[-1]` raises `IndexError`, hence the
`Option`.  `phoneme[:-1]` is the string of all characters but the last. -/
def strip_stress (phoneme : String) : Option String :=
  if phoneme.isEmpty then none
  else if endsWithStressDigit phoneme then some ⟨phoneme.data.dropLast⟩
  else some phoneme

/-- The list comprehension building `nuke` in `destress`: `strip_stress`
applied to every nucleus phoneme left to right, failing at the first phoneme
on which the Python code would raise. -/
def destressNucleus : List String → Option (List String)
  | [] => some []
  | p :: rest =>
    match strip_stress p, destressNucleus rest with
    | some q, some qs => some (q :: qs)
    | _, _ => none

/-- `destress` from `syllabify.py`: a new syllable list with stress digits
stripped from every nucleus phoneme; onset and coda are kept as they are. -/
def destress : List Syllable → Option (List Syllable)
  | [] => some []
  | syllable :: rest =>
    match destressNucleus syllable.nucleus, destress rest with
    | some nuke, some t => some (Syllable.mk syllable.onset nuke syllable.coda :: t)
    | _, _ => none

/-- `DORSALS` from `wcm.py`. -/
def DORSALS : List String := ["K", "G", "NG"]

/-- `LIQUIDS` from `wcm.py`. -/
def LIQUIDS : List String := ["L", "R"]

/-- `VOICED_AF` from `wcm.py`: the voiced fricatives and affricates. -/
def VOICED_AF : List String := ["V", "DH", "Z", "ZH"]

/-- `AF` from `wcm.py`: fricatives and affricates, the voiceless literals
union `VOICED_AF`. -/
def AF : List String := ["F", "TH", "S", "SH", "CH"] ++ VOICED_AF

/-- `sum(ph in cls for ph in consonants)`: occurrences of members of a class
in a consonant list. -/
def classCount (cls consonants : List String) : Nat :=
  consonants.countP fun ph => decide (ph ∈ cls)

/-- The Sound Classes component of `wcm` (`wcm.py` lines 53-72): per
syllable, over `onset + coda`, one point per dorsal occurrence, one per
liquid, one per fricative/affricate, and one per voiced
fricative/affricate. -/
def soundClassScore (syllables : List Syllable) : Nat :=
  (syllables.map fun syllable =>
    let consonants := syllable.onset ++ syllable.coda
    classCount DORSALS consonants + classCount LIQUIDS consonants +
      classCount AF consonants + classCount VOICED_AF consonants).sum

/-- Modelled from the claim wording (spec side of claim C7): the points a
single consonant occurrence contributes to the sound-class component — one
if dorsal, one if liquid, and exactly two if a voiced fricative/affricate,
exactly one if any other fricative/affricate. -/
def phonemePointsSpec (ph : String) : Nat :=
  (if ph ∈ DORSALS then 1 else 0) +
    (if ph ∈ LIQUIDS then 1 else 0) +
    (if ph ∈ VOICED_AF then 2 else if ph ∈ AF then 1 else 0)

/-- Spec-side restatement of the sound-class component: each syllable
contributes the sum of `phonemePointsSpec` over its onset and coda. -/
def soundClassScoreSpec (syllables : List Syllable) : Nat :=
  (syllables.map fun syllable =>
    ((syllable.onset ++ syllable.coda).map phonemePointsSpec).sum).sum

/-- A final onset that the legality tables license at length two or three. -/
def legalOnset (onset : List String) : Prop :=
  (onset.length = 2 ∧ onset ∈ O2) ∨ (onset.length = 3 ∧ onset ∈ O3)

instance : DecidablePred legalOnset := fun o => by
  unfold legalOnset
  infer_instance

/-- A nucleus phoneme that carries at most one trailing stress digit: one
application of `strip_stress` succeeds and yields a nonempty phoneme with no
trailing stress digit left.  Every ARPABET vowel (and the transferred glides
"R"/"Y") satisfies this. -/
def singleStress (phoneme : String) : Bool :=
  match strip_stress phoneme with
  | some q => !q.isEmpty && !endsWithStressDigit q
  | none => false

instance : DecidableEq (Except SyllabifyError (List Syllable)) := fun a b =>
  match a, b with
  | .error e, .error f => decidable_of_iff (e = f) (by
      constructor
      · intro h
        rw [h]
      · intro h
        cases h
        rfl)
  | .error _, .ok _ => isFalse (by intro h; cases h)
  | .ok _, .error _ => isFalse (by intro h; cases h)
  | .ok s, .ok t => decidable_of_iff (s = t) (by
      constructor
      · intro h
        rw [h]
      · intro h
        cases h
        rfl)

/-! ## Conservation of phonemes through the resolver's internal state

Each rule of `resolveStep` only moves phonemes between the resolver's
buffers: the whole onset group is redistributed over the (mutated) preceding
nucleus, the emerging coda, the final onset and the (mutated) current
nucleus.  Because the mutated nuclei are discarded from the output (see
`resolveAux`), this conservation holds of the internal state only — a
phoneme moved into a nucleus by the R- or Y-transfer does not reach the
returned syllables. -/

theorem stepR_concat (prevNuc onset : List String) :
    (stepR prevNuc onset).1 ++ (stepR prevNuc onset).2 = prevNuc ++ onset := by
  cases onset with
  | nil => simp [stepR]
  | cons x rest =>
    simp only [stepR]
    split <;> simp

theorem stepY_concat (nuc cur : List String) :
    (stepY nuc cur).2 ++ (stepY nuc cur).1 = cur ++ nuc := by
  simp only [stepY]
  split
  · rename_i h
    have hY : cur.getLast? = some "Y" := by
      have := (Bool.and_eq_true _ _).mp h
      exact eq_of_beq this.2
    have hd : cur.dropLast ++ ["Y"] = cur :=
      List.dropLast_append_getLast? _ hY
    calc cur.dropLast ++ ("Y" :: nuc) = (cur.dropLast ++ ["Y"]) ++ nuc := by simp
      _ = cur ++ nuc := by rw [hd]
  · rfl

theorem stepAlaska_concat (alaska : Bool) (prevNuc cur : List String) :
    (stepAlaska alaska prevNuc cur).1 ++ (stepAlaska alaska prevNuc cur).2 = cur := by
  cases cur with
  | nil => simp [stepAlaska]
  | cons x rest =>
    simp only [stepAlaska]
    split <;> simp

theorem splitByDepth_concat (cur : List String) :
    (splitByDepth cur).1 ++ (splitByDepth cur).2 = cur := by
  simp [splitByDepth]

theorem resolveStep_concat (alaska : Bool) (prevNuc onset nuc : List String) :
    (resolveStep alaska prevNuc onset nuc).1 ++ (resolveStep alaska prevNuc onset nuc).2.1 ++
      (resolveStep alaska prevNuc onset nuc).2.2.1 ++ (resolveStep alaska prevNuc onset nuc).2.2.2
    = prevNuc ++ onset ++ nuc := by
  obtain ⟨prevNuc1, cur1, hR⟩ : ∃ x y, stepR prevNuc onset = (x, y) := ⟨_, _, rfl⟩
  obtain ⟨nuc1, cur2, hY⟩ : ∃ x y, stepY nuc cur1 = (x, y) := ⟨_, _, rfl⟩
  obtain ⟨coda0, cur3, hA⟩ : ∃ x y, stepAlaska alaska prevNuc1 cur2 = (x, y) := ⟨_, _, rfl⟩
  obtain ⟨peeled, onsetFinal, hS⟩ : ∃ x y, splitByDepth cur3 = (x, y) := ⟨_, _, rfl⟩
  have h1 := stepR_concat prevNuc onset
  have h2 := stepY_concat nuc cur1
  have h3 := stepAlaska_concat alaska prevNuc1 cur2
  have h4 := splitByDepth_concat cur3
  rw [hR] at h1
  rw [hY] at h2
  rw [hA] at h3
  rw [hS] at h4
  simp only at h1 h2 h3 h4
  simp only [resolveStep, hR, hY, hA, hS]
  calc prevNuc1 ++ (coda0 ++ peeled) ++ onsetFinal ++ nuc1
      = prevNuc1 ++ (coda0 ++ (peeled ++ onsetFinal)) ++ nuc1 := by simp [List.append_assoc]
    _ = prevNuc1 ++ (coda0 ++ cur3) ++ nuc1 := by rw [h4]
    _ = prevNuc1 ++ cur2 ++ nuc1 := by rw [h3]
    _ = prevNuc1 ++ (cur2 ++ nuc1) := by rw [List.append_assoc]
    _ = prevNuc1 ++ (cur1 ++ nuc) := by rw [h2]
    _ = (prevNuc1 ++ cur1) ++ nuc := by rw [List.append_assoc]
    _ = prevNuc ++ onset ++ nuc := by rw [h1]

theorem flattenSyllables_cons (s : Syllable) (l : List Syllable) :
    flattenSyllables (s :: l) = s.onset ++ s.nucleus ++ s.coda ++ flattenSyllables l := by
  simp [flattenSyllables]

theorem resolveAux_length (alaska : Bool) (codas : List String) :
    ∀ (pairs : List (List String × List String)) (prevOnset origPrevNuc prevNuc : List String),
    (resolveAux alaska prevOnset origPrevNuc prevNuc codas pairs).length = pairs.length + 1 := by
  intro pairs
  induction pairs with
  | nil => intro po opn pn; simp [resolveAux]
  | cons q rest ih =>
    intro po opn pn
    obtain ⟨o, n⟩ := q
    simp only [resolveAux, List.length_cons]
    rw [ih]

theorem resolveAux_ne_nil (alaska : Bool) (codas : List String)
    (pairs : List (List String × List String)) (prevOnset origPrevNuc prevNuc : List String) :
    resolveAux alaska prevOnset origPrevNuc prevNuc codas pairs ≠ [] := by
  cases pairs with
  | nil => simp [resolveAux]
  | cons q rest => obtain ⟨o, n⟩ := q; simp [resolveAux]

/-! ## Properties of the segmentation pass -/

theorem identifyAux_lengths (pron : List String) : ∀ buf : List String,
    (identifyAux buf pron).2.1.length = (identifyAux buf pron).1.length := by
  induction pron with
  | nil => intro buf; simp [identifyAux]
  | cons p rest ih =>
    intro buf
    by_cases h : VOWELS.contains p
    · simp only [identifyAux, h, if_pos, List.length_cons]
      rw [ih]
    · simp only [identifyAux, h]
      simp only [Bool.false_eq_true, if_false]
      exact ih (buf ++ [p])

theorem identifyAux_count (pron : List String) : ∀ buf : List String,
    (identifyAux buf pron).1.length = pron.countP (fun p => VOWELS.contains p) := by
  induction pron with
  | nil => intro buf; simp [identifyAux]
  | cons p rest ih =>
    intro buf
    by_cases h : VOWELS.contains p
    · simp only [identifyAux, h, if_pos, List.length_cons, List.countP_cons, h, if_true]
      rw [ih]
    · simp only [identifyAux, h, Bool.false_eq_true, if_false, List.countP_cons]
      rw [ih (buf ++ [p])]
      simp [h]

theorem identifyAux_concat (pron : List String) : ∀ buf : List String,
    (((identifyAux buf pron).2.1.zip (identifyAux buf pron).1).map fun q => q.1 ++ q.2).flatten
        ++ (identifyAux buf pron).2.2
      = buf ++ pron := by
  induction pron with
  | nil => intro buf; simp [identifyAux]
  | cons p rest ih =>
    intro buf
    by_cases h : VOWELS.contains p
    · simp only [identifyAux, h, if_pos, List.zip_cons_cons, List.map_cons, List.flatten_cons]
      have h' := ih []
      simp only [List.nil_append] at h'
      rw [List.append_assoc (buf ++ [p]), h']
      simp
    · simp only [identifyAux, h, Bool.false_eq_true, if_false]
      rw [ih (buf ++ [p])]
      simp

/-! ## Onset legality after maximization -/

theorem onsetDepth_cases (cur : List String) :
    onsetDepth cur = 1 ∨
      (onsetDepth cur = 2 ∧ cur.drop (cur.length - 2) ∈ O2 ∧ 2 ≤ cur.length) ∨
      (onsetDepth cur = 3 ∧ cur.drop (cur.length - 3) ∈ O3 ∧ 3 ≤ cur.length) := by
  unfold onsetDepth
  by_cases h1 : cur.length > 1
  · by_cases h3 : (decide (cur.length ≥ 3) && O3.contains (cur.drop (cur.length - 3))) = true
    · obtain ⟨ha, hb⟩ := Bool.and_eq_true_iff.mp h3
      right; right
      have hp3 : 3 ≤ cur.length ∧ cur.drop (cur.length - 3) ∈ O3 :=
        ⟨of_decide_eq_true ha, List.mem_of_elem_eq_true hb⟩
      exact ⟨by simp [h1, hp3], hp3.2, hp3.1⟩
    · have hp3 : ¬(3 ≤ cur.length ∧ cur.drop (cur.length - 3) ∈ O3) := by simpa using h3
      by_cases h2 : O2.contains (cur.drop (cur.length - 2)) = true
      · right; left
        have hp2 : cur.drop (cur.length - 2) ∈ O2 := List.mem_of_elem_eq_true h2
        exact ⟨by simp [h1, hp3, hp2], hp2, by omega⟩
      · left
        have hp2 : cur.drop (cur.length - 2) ∉ O2 := by simpa using h2
        simp [h1, hp3, hp2]
  · left
    simp [h1]

theorem splitByDepth_legal (cur : List String)
    (h : 2 ≤ (splitByDepth cur).2.length) : legalOnset (splitByDepth cur).2 := by
  have hlen : (splitByDepth cur).2.length = cur.length - (cur.length - onsetDepth cur) := by
    simp [splitByDepth]
  rcases onsetDepth_cases cur with h1 | ⟨h2, hm, hge⟩ | ⟨h3, hm, hge⟩
  · exfalso
    rw [hlen, h1] at h
    omega
  · left
    constructor
    · rw [hlen, h2]
      omega
    · have hx : cur.length - onsetDepth cur = cur.length - 2 := by rw [h2]
      simp only [splitByDepth, hx]
      exact hm
  · right
    constructor
    · rw [hlen, h3]
      omega
    · have hx : cur.length - onsetDepth cur = cur.length - 3 := by rw [h3]
      simp only [splitByDepth, hx]
      exact hm

theorem resolveStep_onset_legal (alaska : Bool) (prevNuc onset nuc : List String)
    (h : 2 ≤ (resolveStep alaska prevNuc onset nuc).2.2.1.length) :
    legalOnset (resolveStep alaska prevNuc onset nuc).2.2.1 := by
  obtain ⟨prevNuc1, cur1, hR⟩ : ∃ x y, stepR prevNuc onset = (x, y) := ⟨_, _, rfl⟩
  obtain ⟨nuc1, cur2, hY⟩ : ∃ x y, stepY nuc cur1 = (x, y) := ⟨_, _, rfl⟩
  obtain ⟨coda0, cur3, hA⟩ : ∃ x y, stepAlaska alaska prevNuc1 cur2 = (x, y) := ⟨_, _, rfl⟩
  obtain ⟨peeled, onsetFinal, hS⟩ : ∃ x y, splitByDepth cur3 = (x, y) := ⟨_, _, rfl⟩
  simp only [resolveStep, hR, hY, hA, hS] at h ⊢
  have hl := splitByDepth_legal cur3
  rw [hS] at hl
  exact hl h

theorem resolveAux_shape (alaska : Bool) (codas : List String) :
    ∀ (pairs : List (List String × List String)) (prevOnset origPrevNuc prevNuc : List String),
    ∃ cod T, resolveAux alaska prevOnset origPrevNuc prevNuc codas pairs
        = ⟨prevOnset, origPrevNuc, cod⟩ :: T ∧
      ∀ s ∈ T, 2 ≤ s.onset.length → legalOnset s.onset := by
  intro pairs
  induction pairs with
  | nil =>
    intro prevOnset origPrevNuc prevNuc
    exact ⟨codas, [], rfl, by simp⟩
  | cons q rest ih =>
    intro prevOnset origPrevNuc prevNuc
    obtain ⟨o, n⟩ := q
    obtain ⟨cod', T', hrec, hT'⟩ :=
      ih (resolveStep alaska prevNuc o n).2.2.1 n (resolveStep alaska prevNuc o n).2.2.2
    refine ⟨(resolveStep alaska prevNuc o n).2.1,
      ⟨(resolveStep alaska prevNuc o n).2.2.1, n, cod'⟩ :: T', ?_, ?_⟩
    · simp only [resolveAux]
      rw [hrec]
    · intro s hs hlen
      rcases List.mem_cons.mp hs with hhead | htail
      · subst hhead
        exact resolveStep_onset_legal alaska prevNuc o n hlen
      · exact hT' s htail hlen

/-! ## Inversion of the resolver and the syllabifier -/

theorem resolve_ok_elim (ns os : List (List String)) (cs : List String) (alaska : Bool)
    (syls : List Syllable) (h : resolve_onsets_and_codas ns os cs alaska = .ok syls) :
    ∃ n0 nrest o0 orest, ns = n0 :: nrest ∧ os = o0 :: orest ∧
      nrest.length = orest.length ∧ syls = resolveAux alaska o0 n0 n0 cs (orest.zip nrest) := by
  cases ns with
  | nil => simp [resolve_onsets_and_codas] at h
  | cons n0 nrest =>
    cases os with
    | nil => simp [resolve_onsets_and_codas] at h
    | cons o0 orest =>
      simp only [resolve_onsets_and_codas] at h
      split at h
      · simp at h
      · rename_i hlen
        simp only [Except.ok.injEq] at h
        exact ⟨n0, nrest, o0, orest, rfl, rfl, by omega, h.symm⟩

theorem syllabify_ok_elim (pron : List String) (alaska : Bool) (syls : List Syllable)
    (h : syllabify pron alaska = .ok syls) :
    ∃ n0 nrest o0 orest,
      (identify_nuclei_and_onsets pron).1 = n0 :: nrest ∧
      (identify_nuclei_and_onsets pron).2.1 = o0 :: orest ∧
      nrest.length = orest.length ∧
      syls = resolveAux alaska o0 n0 n0 (identify_nuclei_and_onsets pron).2.2 (orest.zip nrest) ∧
      flattenSyllables syls = pron := by
  simp only [syllabify] at h
  split at h
  · simp at h
  · rename_i s hres
    split at h
    · simp at h
    · rename_i hflat
      simp only [Except.ok.injEq] at h
      subst h
      obtain ⟨n0, nrest, o0, orest, hns, hos, hlen, hsyl⟩ :=
        resolve_ok_elim _ _ _ _ _ hres
      exact ⟨n0, nrest, o0, orest, hns, hos, hlen, by rw [hsyl], by
        simpa using hflat⟩

/-! ## Destress -/

theorem strip_stress_fixed_of_singleStress (p : String) (h : singleStress p = true) :
    ∃ q, strip_stress p = some q ∧ strip_stress q = some q := by
  unfold singleStress at h
  cases hs : strip_stress p with
  | none => rw [hs] at h; simp at h
  | some q =>
    rw [hs] at h
    obtain ⟨h1, h2⟩ := Bool.and_eq_true_iff.mp h
    have hq1 : q.isEmpty = false := by
      revert h1; cases q.isEmpty <;> simp
    have hq2 : endsWithStressDigit q = false := by
      revert h2; cases endsWithStressDigit q <;> simp
    refine ⟨q, rfl, ?_⟩
    simp [strip_stress, hq1, hq2]

theorem destressNucleus_fixed (l : List String) (h : l.all singleStress = true) :
    ∃ m, destressNucleus l = some m ∧ destressNucleus m = some m := by
  induction l with
  | nil => exact ⟨[], rfl, rfl⟩
  | cons p t ih =>
    rw [List.all_cons] at h
    obtain ⟨hp, ht⟩ := Bool.and_eq_true_iff.mp h
    obtain ⟨q, hq1, hq2⟩ := strip_stress_fixed_of_singleStress p hp
    obtain ⟨m, hm1, hm2⟩ := ih ht
    refine ⟨q :: m, ?_, ?_⟩
    · simp [destressNucleus, hq1, hm1]
    · simp [destressNucleus, hq2, hm2]

theorem destress_fixed_of_singleStress (syllab : List Syllable)
    (h : ∀ s ∈ syllab, s.nucleus.all singleStress = true) :
    ∃ t, destress syllab = some t ∧ destress t = some t := by
  induction syllab with
  | nil => exact ⟨[], rfl, rfl⟩
  | cons s rest ih =>
    obtain ⟨m, hm1, hm2⟩ := destressNucleus_fixed s.nucleus (h s (by simp))
    obtain ⟨t, ht1, ht2⟩ := ih fun x hx => h x (by simp [hx])
    refine ⟨⟨s.onset, m, s.coda⟩ :: t, ?_, ?_⟩
    · simp [destress, hm1, ht1]
    · simp [destress, hm2, ht2]

/-! ## The sound-class component of the WCM scorer -/

theorem soundClass_consonants (c : List String) :
    classCount DORSALS c + classCount LIQUIDS c + classCount AF c + classCount VOICED_AF c
      = (c.map phonemePointsSpec).sum := by
  induction c with
  | nil => simp [classCount]
  | cons ph t ih =>
    have hstep : ((if ph ∈ DORSALS then (1 : Nat) else 0) + (if ph ∈ LIQUIDS then 1 else 0)) +
        ((if ph ∈ AF then 1 else 0) + (if ph ∈ VOICED_AF then 1 else 0))
        = phonemePointsSpec ph := by
      have hAFv : ph ∈ VOICED_AF → ph ∈ AF := by
        intro hv
        unfold AF
        exact List.mem_append_right _ hv
      unfold phonemePointsSpec
      by_cases hV : ph ∈ VOICED_AF
      · have hAF := hAFv hV
        simp only [hV, hAF, if_pos]
      · by_cases hAF : ph ∈ AF <;> simp only [hV, hAF, if_pos, if_neg, not_false_iff]
    simp only [classCount, List.countP_cons, List.map_cons, List.sum_cons,
      decide_eq_true_eq] at ih ⊢
    omega

/-! ## Claim theorems -/

/-- Claim C1: for every pronunciation on which `syllabify` returns a result
(any `alaska_rule` setting), concatenating onset+nucleus+coda of every
returned syllable, in syllable order, reproduces the input phoneme sequence
exactly. -/
theorem syllabify_round_trip (pron : List String) (alaska : Bool) (syls : List Syllable)
    (h : syllabify pron alaska = .ok syls) : flattenSyllables syls = pron := by
  obtain ⟨_, _, _, _, _, _, _, _, hflat⟩ := syllabify_ok_elim pron alaska syls h
  exact hflat

/-- Witness for claim C1 at the pronunciation of "cat". -/
theorem syllabify_round_trip_witness :
    flattenSyllables [⟨["K"], ["AE1"], ["T"]⟩] = ["K", "AE1", "T"] :=
  syllabify_round_trip ["K", "AE1", "T"] true [⟨["K"], ["AE1"], ["T"]⟩] (by decide)

/-- Claim C2, counterexample: with the Alaska rule active (the default),
`syllabify` on the pronunciation of "Alaska" does NOT return the claimed
syllables ([]-AH0-[], [L]-AE1-[], [S,K]-AH0-[]); the rule moves the "S" into
the second syllable coda. -/
theorem alaska_example_counterexample :
    syllabify ["AH0", "L", "AE1", "S", "K", "AH0"] true
      ≠ .ok [⟨[], ["AH0"], []⟩, ⟨["L"], ["AE1"], []⟩, ⟨["S", "K"], ["AH0"], []⟩] := by
  decide

/-- Claim C2, amended: with the Alaska rule active, "Alaska" syllabifies as
[]-AH0-[], [L]-AE1-[S], [K]-AH0-[] with pretty print "AH0.L-AE1-S.K-AH0";
the output claimed by the spec (and by the stale docstring example in the
source) is exactly what `alaska_rule = false` produces, with the claimed
pretty print "AH0.L-AE1.S K-AH0". -/
theorem alaska_example_amended :
    syllabify ["AH0", "L", "AE1", "S", "K", "AH0"] true
        = .ok [⟨[], ["AH0"], []⟩, ⟨["L"], ["AE1"], ["S"]⟩, ⟨["K"], ["AH0"], []⟩] ∧
      pretty_print [⟨[], ["AH0"], []⟩, ⟨["L"], ["AE1"], ["S"]⟩, ⟨["K"], ["AH0"], []⟩]
        = "AH0.L-AE1-S.K-AH0" ∧
      syllabify ["AH0", "L", "AE1", "S", "K", "AH0"] false
        = .ok [⟨[], ["AH0"], []⟩, ⟨["L"], ["AE1"], []⟩, ⟨["S", "K"], ["AH0"], []⟩] ∧
      pretty_print [⟨[], ["AH0"], []⟩, ⟨["L"], ["AE1"], []⟩, ⟨["S", "K"], ["AH0"], []⟩]
        = "AH0.L-AE1.S K-AH0" :=
  ⟨by decide, by decide, by decide, by decide⟩

/-- Claim C3, counterexample: `syllabify` on the empty pronunciation does not
return the empty syllable list. -/
theorem empty_input_counterexample : syllabify [] true ≠ .ok [] := by decide

/-- Claim C3, amended: `syllabify` on the empty pronunciation fails with the
resolver validation error (`InvalidInputError`: the nuclei and onsets lists
are empty), for either `alaska_rule` setting, instead of returning the empty
syllable list. -/
theorem empty_input_invalid (alaska : Bool) :
    syllabify [] alaska = .error .invalidInput := rfl

/-- Claim C4, counterexample: a returned word-initial onset of length 2 that
is in neither legality table — the word-initial onset is never checked. -/
theorem initial_onset_not_checked :
    syllabify ["T", "S", "AA1"] true = .ok [⟨["T", "S"], ["AA1"], []⟩] ∧
      ¬legalOnset ["T", "S"] :=
  ⟨by decide, by decide⟩

/-- Claim C4, amended: in every returned syllabification, every syllable
OTHER THAN THE FIRST whose onset has length ≥ 2 has its onset licensed by the
legality tables: length exactly 2 with the onset in `O2`, or length exactly 3
with the onset in `O3`.  (The word-initial onset is passed through untouched
and is exempt.) -/
theorem medial_onset_legal (pron : List String) (alaska : Bool) (syls : List Syllable)
    (h : syllabify pron alaska = .ok syls) :
    ∀ s ∈ syls.tail, 2 ≤ s.onset.length → legalOnset s.onset := by
  obtain ⟨n0, nrest, o0, orest, _, _, _, hsyl, _⟩ := syllabify_ok_elim pron alaska syls h
  obtain ⟨cod, T, hshape, hT⟩ :=
    resolveAux_shape alaska (identify_nuclei_and_onsets pron).2.2 (orest.zip nrest) o0 n0 n0
  rw [hsyl, hshape]
  simpa using hT

/-- Witness for the amended claim C4 at a word with medial onset S T R. -/
theorem medial_onset_legal_witness : legalOnset ["S", "T", "R"] :=
  medial_onset_legal ["AH0", "S", "T", "R", "AA1"] true
    [⟨[], ["AH0"], []⟩, ⟨["S", "T", "R"], ["AA1"], []⟩] (by decide)
    ⟨["S", "T", "R"], ["AA1"], []⟩ (by decide) (by decide)

/-- Claim C5, counterexample: the vowelless pronunciation S T R does not fail
at the round-trip validation gate (`SyllabificationError`). -/
theorem vowelless_not_roundtrip_error :
    syllabify ["S", "T", "R"] true ≠ .error .roundTripMismatch := by decide

/-- Claim C5, amended: every non-empty pronunciation with no vowel phoneme
fails with the resolver validation error (`InvalidInputError`: empty nuclei
and onsets lists), not with the round-trip `SyllabificationError`. -/
theorem vowelless_invalid_input (pron : List String) (alaska : Bool)
    (hne : pron ≠ []) (hnv : ∀ p ∈ pron, p ∉ VOWELS) :
    syllabify pron alaska = .error .invalidInput := by
  obtain ⟨ns, os, cs, hI⟩ : ∃ a b c, identify_nuclei_and_onsets pron = (a, b, c) :=
    ⟨_, _, _, rfl⟩
  have hcount : ns.length = pron.countP fun p => VOWELS.contains p := by
    have hx := identifyAux_count pron []
    rw [show identifyAux [] pron = (ns, os, cs) from hI] at hx
    exact hx
  have hzero : (pron.countP fun p => VOWELS.contains p) = 0 := by
    rw [List.countP_eq_zero]
    intro p hp
    simpa using hnv p hp
  have hns : ns = [] := List.eq_nil_of_length_eq_zero (hcount.trans hzero)
  unfold syllabify
  rw [hI, hns]
  simp [resolve_onsets_and_codas]

/-- Witness for the amended claim C5 at the vowelless cluster S T R. -/
theorem vowelless_invalid_input_witness :
    syllabify ["S", "T", "R"] true = .error .invalidInput :=
  vowelless_invalid_input ["S", "T", "R"] true (by decide) (by decide)

/-- Claim C6: whenever `syllabify` returns a result, the number of syllables
equals the number of input phonemes in the vowel set. -/
theorem syllable_count_eq_vowel_count (pron : List String) (alaska : Bool)
    (syls : List Syllable) (h : syllabify pron alaska = .ok syls) :
    syls.length = pron.countP fun p => VOWELS.contains p := by
  obtain ⟨n0, nrest, o0, orest, hns, hos, hlen, hsyl, _⟩ :=
    syllabify_ok_elim pron alaska syls h
  have hcount : (identify_nuclei_and_onsets pron).1.length
      = pron.countP fun p => VOWELS.contains p := identifyAux_count pron []
  rw [hns] at hcount
  rw [hsyl, resolveAux_length, List.length_zip, ← hlen, Nat.min_self]
  simp only [List.length_cons] at hcount
  omega

/-- Witness for claim C6 at the pronunciation of "hello". -/
theorem syllable_count_witness :
    ([⟨["HH"], ["AH0"], []⟩, ⟨["L"], ["OW1"], []⟩] : List Syllable).length
      = ["HH", "AH0", "L", "OW1"].countP fun p => VOWELS.contains p :=
  syllable_count_eq_vowel_count ["HH", "AH0", "L", "OW1"] true
    [⟨["HH"], ["AH0"], []⟩, ⟨["L"], ["OW1"], []⟩] (by decide)

/-- Claim C7: the sound-class component of the WCM score equals the sum, over
every syllable and every consonant occurrence in its onset+coda, of one point
for a dorsal, one for a liquid, and exactly two points for a voiced
fricative/affricate (double-counted) versus exactly one for any other
fricative/affricate. -/
theorem soundClassScore_matches_spec (syllables : List Syllable) :
    soundClassScore syllables = soundClassScoreSpec syllables := by
  induction syllables with
  | nil => simp [soundClassScore, soundClassScoreSpec]
  | cons s rest ih =>
    simp only [soundClassScore, soundClassScoreSpec, List.map_cons, List.sum_cons] at ih ⊢
    rw [soundClass_consonants]
    omega

/-- Claim C8, counterexample: `destress` is not idempotent on arbitrary
syllables — a nucleus phoneme with two trailing stress digits loses one digit
per application. -/
theorem destress_not_idempotent :
    (destress [⟨[], ["A12"], []⟩]).bind destress ≠ destress [⟨[], ["A12"], []⟩] := by
  decide

/-- Claim C8, amended: `destress` is idempotent on every syllable sequence
whose nucleus phonemes carry at most one trailing stress digit (and stay
nonempty once it is stripped) — in particular on all ARPABET vowel nuclei,
with or without the transferred glides "R"/"Y". -/
theorem destress_twice_eq_once (syllab : List Syllable)
    (h : ∀ s ∈ syllab, s.nucleus.all singleStress = true) :
    (destress syllab).bind destress = destress syllab := by
  obtain ⟨t, h1, h2⟩ := destress_fixed_of_singleStress syllab h
  rw [h1]
  exact h2

/-- Witness for the amended claim C8 at a syllable with a stressed nucleus. -/
theorem destress_twice_witness :
    (destress [⟨["L"], ["AE1"], ["S"]⟩]).bind destress
      = destress [⟨["L"], ["AE1"], ["S"]⟩] :=
  destress_twice_eq_once [⟨["L"], ["AE1"], ["S"]⟩] (by decide)

/-- Claim C9, evaluation at a failing input: the pronunciation
AA1 R T AH0 contains two vowels, yet `syllabify` takes the round-trip
mismatch branch for either `alaska_rule` setting.  The medial group [R, T]
fires the R-transfer, which appends the R to the resolver's deep-copied
nuclei; that copy is discarded (`resolve_onsets_and_codas` returns only
onsets and codas) and `syllabify` zips the original single-vowel nuclei, so
the flattened output [AA1, T, AH0] is missing the R and the validation at
the end of `syllabify` raises.  The claim (and the spec, whose design notes
say the final Syllable keeps the borrowed glide/liquid) expects the
validation to pass; the code drops the phoneme instead. -/
theorem r_transfer_round_trip_fails :
    (["AA1", "R", "T", "AH0"].countP fun p => VOWELS.contains p) = 2 ∧
      syllabify ["AA1", "R", "T", "AH0"] true = .error .roundTripMismatch ∧
      syllabify ["AA1", "R", "T", "AH0"] false = .error .roundTripMismatch :=
  ⟨by decide, by decide, by decide⟩

/-- Claim C10: whenever `syllabify` returns instead of raising, the returned
syllable list is non-empty, so an unguarded access to the last syllable (as
in the `wcm` scorer) cannot fail. -/
theorem syllabify_ok_nonempty (pron : List String) (alaska : Bool)
    (syls : List Syllable) (h : syllabify pron alaska = .ok syls) : syls ≠ [] := by
  obtain ⟨n0, nrest, o0, orest, _, _, _, hsyl, _⟩ := syllabify_ok_elim pron alaska syls h
  rw [hsyl]
  exact resolveAux_ne_nil alaska _ _ _ _ _

/-- Witness for claim C10 at the pronunciation of "cab". -/
theorem syllabify_ok_nonempty_witness :
    ([⟨["K"], ["AE1"], ["B"]⟩] : List Syllable) ≠ [] :=
  syllabify_ok_nonempty ["K", "AE1", "B"] true [⟨["K"], ["AE1"], ["B"]⟩] (by decide)
